import Mathlib

/-!
Verification of the HTML-generation engine in `pyHTMLGenerator.py`.

The source is one Python class `T` holding a name, an ordered attribute
list and an ordered contents list, with a recursive `_render` method that
serialises the tree to indented text and substitutes `${identifier}`
placeholders via `string.Template.substitute`.

We embed the class as a mutual inductive (`Node` / `ContentList` /
`Content`), model `string.Template.substitute` as an executable character
scanner, and model `_render` as a pure function returning both the output
string and the post-render node (the source mutates the `__multi_line`
flag during traversal, so the node state after rendering is observable).
-/

set_option maxHeartbeats 1000000

namespace PyHTML

/-- Error raised by the substitution engine: `missingVariable` models
Python's `KeyError` from `Template.substitute` (the spec's
`MissingVariable`), `invalidPlaceholder` models its `ValueError` for a
malformed `$` sequence. -/
inductive SubstError where
  | missingVariable : String → SubstError
  | invalidPlaceholder : SubstError
  deriving DecidableEq, Repr

/-- First character of a Python `Template` identifier: `[_a-zA-Z]`. -/
def isIdentStart (c : Char) : Bool :=
  c == '_' || c.isAlpha

/-- Later characters of a Python `Template` identifier: `[_a-zA-Z0-9]`. -/
def isIdentChar (c : Char) : Bool :=
  isIdentStart c || c.isDigit

/-- Scanner mode for `string.Template.substitute`: plain text, just after
a `$`, just after `$\x7b`, inside a braced identifier, or inside an
unbraced identifier. -/
inductive SMode where
  | plain : SMode
  | dollar : SMode
  | braceStart : SMode
  | braced : List Char → SMode
  | ident : List Char → SMode
  deriving DecidableEq, Repr

/-- Character-level model of Python `string.Template.substitute` with the
default pattern: `$$` is an escaped dollar, `$name` and `$\x7bname\x7d`
are placeholders resolved against the namespace (raising `KeyError` /
`missingVariable` when absent), and any other `$` sequence is invalid. -/
def scan (ns : List (String × String)) : SMode → List Char → Except SubstError (List Char)
  | .plain, [] => .ok []
  | .plain, c :: rest =>
      if c = '$' then scan ns .dollar rest
      else (fun r => c :: r) <$> scan ns .plain rest
  | .dollar, [] => .error .invalidPlaceholder
  | .dollar, c :: rest =>
      if c = '$' then (fun r => '$' :: r) <$> scan ns .plain rest
      else if c = '\x7b' then scan ns .braceStart rest
      else if isIdentStart c then scan ns (.ident [c]) rest
      else .error .invalidPlaceholder
  | .braceStart, [] => .error .invalidPlaceholder
  | .braceStart, c :: rest =>
      if isIdentStart c then scan ns (.braced [c]) rest
      else .error .invalidPlaceholder
  | .braced _, [] => .error .invalidPlaceholder
  | .braced acc, c :: rest =>
      if isIdentChar c then scan ns (.braced (acc ++ [c])) rest
      else if c = '\x7d' then
        match List.lookup (String.mk acc) ns with
        | some v => (fun r => v.data ++ r) <$> scan ns .plain rest
        | none => .error (.missingVariable (String.mk acc))
      else .error .invalidPlaceholder
  | .ident acc, [] =>
      match List.lookup (String.mk acc) ns with
      | some v => .ok v.data
      | none => .error (.missingVariable (String.mk acc))
  | .ident acc, c :: rest =>
      if isIdentChar c then scan ns (.ident (acc ++ [c])) rest
      else
        match List.lookup (String.mk acc) ns with
        | some v =>
            if c = '$' then (fun r => v.data ++ r) <$> scan ns .dollar rest
            else (fun r => v.data ++ c :: r) <$> scan ns .plain rest
        | none => .error (.missingVariable (String.mk acc))

/-- `Template(s).substitute(ns)` on a whole string. -/
def substStr (ns : List (String × String)) (s : String) : Except SubstError String :=
  String.mk <$> scan ns .plain s.data

/-- Whitespace characters stripped by Python's `str.strip` / `str.rstrip`
(the ASCII ones; the source only ever produces ASCII whitespace). -/
def isPyWhitespace (c : Char) : Bool :=
  c == ' ' || c == '\t' || c == '\n' || c == '\r' || c == '\x0b' || c == '\x0c'

/-- Drop the longest suffix of characters satisfying `p` (Python `rstrip`). -/
def dropTrailing (p : Char → Bool) (l : List Char) : List Char :=
  (l.reverse.dropWhile p).reverse

/-- Python `s.rstrip()` on the character list of `s`. -/
def pyRstrip (l : List Char) : List Char :=
  dropTrailing isPyWhitespace l

/-- Python `s.strip()` on the character list of `s`. -/
def pyStrip (l : List Char) : List Char :=
  (pyRstrip l).dropWhile isPyWhitespace

/-- The source's fixed indentation unit `TAB = "  "`. -/
def TAB : String := "  "

/-- Python `TAB * level`: `level` copies of the two-space unit, empty for
any `level ≤ 0` (Python string repetition by a non-positive count). -/
def tabs (level : Int) : String :=
  String.mk (List.replicate (2 * level.toNat) ' ')

mutual

/-- A `T` instance from the source: `__name`, `__multi_line`,
`__attributes` (ordered pairs), `__contents` (ordered entries). -/
inductive Node where
  | mk : Option String → Bool → List (String × String) → ContentList → Node
  deriving DecidableEq, Repr

/-- The ordered `__contents` list of a node. -/
inductive ContentList where
  | nil : ContentList
  | cons : Content → ContentList → ContentList
  deriving DecidableEq, Repr

/-- One entry of `__contents`: `None`, a nested `T`, or a text/template
string (the source's loop distinguishes exactly these three cases). -/
inductive Content where
  | null : Content
  | node : Node → Content
  | text : String → Content
  deriving DecidableEq, Repr

end

namespace Node

/-- The `__name` field. -/
def name : Node → Option String
  | .mk n _ _ _ => n

/-- The `__multi_line` field. -/
def multiLine : Node → Bool
  | .mk _ ml _ _ => ml

/-- The `__attributes` field. -/
def attributes : Node → List (String × String)
  | .mk _ _ a _ => a

/-- The `__contents` field. -/
def contents : Node → ContentList
  | .mk _ _ _ cs => cs

end Node

/-- List append on `ContentList`. -/
def ContentList.append : ContentList → ContentList → ContentList
  | .nil, ys => ys
  | .cons x xs, ys => .cons x (xs.append ys)

/-- Python truthiness of the `__name` field in `if self.__name:`: `None`
and the empty string are falsy. -/
def nameTruthy : Option String → Bool
  | none => false
  | some s => s ≠ ""

/-- The name as embedded in tags (only used when `nameTruthy`). -/
def nameStr : Option String → String
  | none => ""
  | some s => s

/-- The attribute segment of an opening tag: one ` name="value"` fragment
per pair, in list order (the loop in `T.__open`). -/
def attrsText : List (String × String) → String
  | [] => ""
  | (n, v) :: rest => " " ++ n ++ "=\"" ++ v ++ "\"" ++ attrsText rest

/-- The template string built by `T.__open` before substitution: the
indentation, the tag with its attributes, and a newline when multi-line. -/
def openText (n : String) (attrs : List (String × String)) (ml : Bool) (level : Int) : String :=
  tabs level ++ "<" ++ n ++ attrsText attrs ++ ">" ++ (if ml then "\n" else "")

/-- The string built by `T.__close` (no substitution in the source). -/
def closeText (n : String) (ml : Bool) (level : Int) : String :=
  if ml then "\n" ++ tabs level ++ "</" ++ n ++ ">\n" else "</" ++ n ++ ">\n"

mutual

/-- `T._render(level, **namespace)`: renders the contents (recursively at
`level + 1` for node children, with `tabs level` before them and substitution
for text children), strips the concatenation (both ends when single-line,
right only when multi-line), and wraps it in open/close tags when the
name is truthy.  Returns the output and the post-render node, whose
`multiLine` flag has been updated as the source mutates it. -/
def renderNode : Node → Int → List (String × String) → Except SubstError (String × Node)
  | .mk n ml attrs cs, level, ns =>
      match renderContents cs level ns ml with
      | .error e => .error e
      | .ok (s, b, cs2) =>
          let txt := if b then String.mk (pyRstrip s.data) else String.mk (pyStrip s.data)
          if nameTruthy n then
            match substStr ns (openText (nameStr n) attrs b level) with
            | .error e => .error e
            | .ok op => .ok (op ++ txt ++ closeText (nameStr n) b level, .mk n b attrs cs2)
          else .ok (txt, .mk n b attrs cs2)

/-- The loop over `self.__contents` in `T._render`, threading the
`__multi_line` flag: `None` entries are skipped, node entries set the
flag and render at `level + 1`, text entries are substituted and preceded
by `tabs level`.  Returns the concatenated fragments, the final flag,
and the post-render contents. -/
def renderContents : ContentList → Int → List (String × String) → Bool → Except SubstError (String × Bool × ContentList)
  | .nil, _, _, ml => .ok ("", ml, .nil)
  | .cons .null rest, level, ns, ml =>
      match renderContents rest level ns ml with
      | .error e => .error e
      | .ok (s, b, rest2) => .ok (s, b, .cons .null rest2)
  | .cons (.node child) rest, level, ns, _ =>
      match renderNode child (level + 1) ns with
      | .error e => .error e
      | .ok (s1, child2) =>
          match renderContents rest level ns true with
          | .error e => .error e
          | .ok (s, b, rest2) => .ok (s1 ++ s, b, .cons (.node child2) rest2)
  | .cons (.text s0) rest, level, ns, ml =>
      match substStr ns s0 with
      | .error e => .error e
      | .ok s1 =>
          match renderContents rest level ns ml with
          | .error e => .error e
          | .ok (s, b, rest2) => .ok (tabs level ++ s1 ++ s, b, .cons (.text s0) rest2)

end

/-- Whether a contents list has at least one node (`ElementNode`) entry —
the condition under which the render loop sets `__multi_line`. -/
def hasNodeC : ContentList → Bool
  | .nil => false
  | .cons (.node _) _ => true
  | .cons _ rest => hasNodeC rest

mutual

/-- Erase every `__multi_line` flag in a tree: two trees with equal
erasures agree on names, attributes and children, differing at most in
the derived flags. -/
def eraseML : Node → Node
  | .mk n _ attrs cs => .mk n false attrs (eraseMLC cs)

/-- `eraseML` on a contents list. -/
def eraseMLC : ContentList → ContentList
  | .nil => .nil
  | .cons c cs => .cons (eraseMLItem c) (eraseMLC cs)

/-- `eraseML` on one contents entry. -/
def eraseMLItem : Content → Content
  | .null => .null
  | .text s => .text s
  | .node t => .node (eraseML t)

end

/-- Python `name.rstrip('_')`: strip trailing underscores. -/
def stripTrailingUnderscores (n : String) : String :=
  String.mk (dropTrailing (fun c => c == '_') n.data)

/-- `T._set(name, value)` (also the non-underscore branch of
`T.__setattr__`): append `(name.rstrip('_'), value)` to `__attributes`. -/
def T_set (t : Node) (n v : String) : Node :=
  .mk t.name t.multiLine (t.attributes ++ [(stripTrailingUnderscores n, v)]) t.contents

/-- `T.__lt__(other)` with a node argument: append the node to
`__contents` (the `self < t` call in `T.__getattr__`). -/
def appendChild (t : Node) (c : Node) : Node :=
  .mk t.name t.multiLine t.attributes (t.contents.append (.cons (.node c) .nil))

/-- Whether a Python identifier starts with an underscore (the test in
`T.__setattr__`). -/
def startsUnderscore (n : String) : Bool :=
  match n.data with
  | [] => false
  | c :: _ => c == '_'

/-- The attribute names resolvable on class `T` itself (its methods and
standard class attributes, with `__open`/`__close` name-mangled).  Every
one of them starts with an underscore. -/
def T_classKeys : List String :=
  ["__module__", "__qualname__", "__doc__", "__dict__", "__weakref__",
   "__init__", "_T__open", "_T__close", "_render", "__getattr__",
   "__setattr__", "_set", "__lt__", "__call__", "__enter__", "__exit__"]

/-- The keys `T.__init__` places in a fresh instance `__dict__` (the four
internal fields, name-mangled).  Every one starts with an underscore. -/
def T_initialDictKeys : List String :=
  ["_T__name", "_T__multi_line", "_T__contents", "_T__attributes"]

/-- A `T` instance as seen by Python's attribute protocol: the tree node
plus the extra `__dict__` keys added by underscore-named assignments
(`T.__setattr__` writes those to `self.__dict__` directly; all other
assignments go to the `__attributes` list and never enter `__dict__`). -/
structure PyNode where
  node : Node
  extraDictKeys : List String
  deriving DecidableEq, Repr

/-- `T(name)`: fresh instance, no attributes, no contents, flag false,
instance dictionary holding only the four internal fields. -/
def pyNew (n : Option String) : PyNode :=
  ⟨.mk n false [] .nil, []⟩

/-- `instance.name = value` through `T.__setattr__`: underscore names go
to the instance dictionary, all others are appended to `__attributes`
(after stripping trailing underscores). -/
def pySetattr (p : PyNode) (n v : String) : PyNode :=
  if startsUnderscore n then ⟨p.node, p.extraDictKeys ++ [n]⟩
  else ⟨T_set p.node n v, p.extraDictKeys⟩

/-- Whether normal Python attribute lookup of `n` on the instance fails
(not an instance `__dict__` key and not a class attribute) — exactly the
condition under which `T.__getattr__` is invoked. -/
def lookupFails (p : PyNode) (n : String) : Bool :=
  !(T_initialDictKeys.contains n || p.extraDictKeys.contains n || T_classKeys.contains n)

/-- Evaluating `instance.n`: when normal lookup fails, `T.__getattr__`
creates a fresh child `T(n)`, appends it to `__contents` via `self < t`,
and returns it; when lookup succeeds no node is created (`none`). -/
def pyRef (p : PyNode) (n : String) : Option (Node × PyNode) :=
  if lookupFails p n then
    let c : Node := .mk (some n) false [] .nil
    some (c, ⟨appendChild p.node c, p.extraDictKeys⟩)
  else none

theorem exceptMap_map {ε α β γ : Type} (f : α → β) (g : β → γ) (x : Except ε α) :
    g <$> (f <$> x) = (fun a => g (f a)) <$> x := by
  cases x <;> rfl

theorem exceptMap_ok {ε α β : Type} (f : α → β) (a : α) :
    (f <$> (.ok a : Except ε α)) = .ok (f a) := rfl

theorem exceptMap_error {ε α β : Type} (f : α → β) (e : ε) :
    (f <$> (.error e : Except ε α)) = .error e := rfl

theorem scan_plain_nodollar (ns : List (String × String)) (l : List Char)
    (h : ∀ c ∈ l, c ≠ '$') : scan ns .plain l = .ok l := by
  induction l with
  | nil => rfl
  | cons c cs ih =>
      have hc : c ≠ '$' := h c (by simp)
      simp only [scan, if_neg hc, ih (fun x hx => h x (List.mem_cons_of_mem c hx)),
        exceptMap_ok]

theorem scan_plain_append (ns : List (String × String)) (pre l : List Char)
    (h : ∀ c ∈ pre, c ≠ '$') :
    scan ns .plain (pre ++ l) = (fun r => pre ++ r) <$> scan ns .plain l := by
  induction pre with
  | nil =>
      rw [List.nil_append]
      cases h' : scan ns .plain l <;> simp [h', exceptMap_ok, exceptMap_error]
  | cons c cs ih =>
      have hc : c ≠ '$' := h c (by simp)
      rw [List.cons_append]
      simp only [scan, if_neg hc, ih (fun x hx => h x (List.mem_cons_of_mem c hx))]
      cases h' : scan ns .plain l <;> simp [h', exceptMap_ok, exceptMap_error]

theorem scan_braced_consume (ns : List (String × String)) (tail : List Char) :
    ∀ (acc rest : List Char), (∀ c ∈ tail, isIdentChar c = true) →
    scan ns (.braced acc) (tail ++ '\x7d' :: rest) =
      match List.lookup (String.mk (acc ++ tail)) ns with
      | some v => (fun r => v.data ++ r) <$> scan ns .plain rest
      | none => .error (.missingVariable (String.mk (acc ++ tail))) := by
  induction tail with
  | nil =>
      intro acc rest _
      have h1 : isIdentChar '\x7d' = false := by decide
      simp [scan, h1]
  | cons c cs ih =>
      intro acc rest h
      have hc : isIdentChar c = true := h c (by simp)
      have hrest : ∀ x ∈ cs, isIdentChar x = true := fun x hx => h x (List.mem_cons_of_mem c hx)
      rw [List.cons_append]
      simp only [scan, hc, if_true]
      have := ih (acc ++ [c]) rest hrest
      simpa [List.append_assoc] using this

theorem scan_append_newline (ns : List (String × String)) (l : List Char) :
    ∀ m : SMode, scan ns m (l ++ ['\n']) = (fun r => r ++ ['\n']) <$> scan ns m l := by
  induction l with
  | nil =>
      intro m
      cases m with
      | plain => rfl
      | dollar => rfl
      | braceStart => rfl
      | braced acc =>
          have h1 : isIdentChar '\n' = false := by decide
          have h2 : ('\n' = '\x7d') = False := by simp
          simp only [List.nil_append, scan, h1, Bool.false_eq_true, if_false, h2,
            exceptMap_error]
      | ident acc =>
          have h1 : isIdentChar '\n' = false := by decide
          have h2 : ('\n' = '$') = False := by simp
          simp only [List.nil_append, scan, h1, Bool.false_eq_true, if_false, h2]
          cases List.lookup (String.mk acc) ns <;> simp [exceptMap_ok, exceptMap_error]
  | cons c cs ih =>
      intro m
      cases m with
      | plain =>
          by_cases hc : c = '$' <;>
            simp [scan, hc, ih, exceptMap_map, exceptMap_ok, exceptMap_error]
      | dollar =>
          by_cases hc : c = '$'
          · simp [scan, hc, ih, exceptMap_map, exceptMap_ok, exceptMap_error]
          · by_cases hb : c = '\x7b'
            · simp [scan, hc, hb, ih, exceptMap_map, exceptMap_ok, exceptMap_error]
            · by_cases hs : isIdentStart c = true <;>
                simp [scan, hc, hb, hs, ih, exceptMap_map, exceptMap_ok, exceptMap_error]
      | braceStart =>
          by_cases hs : isIdentStart c = true <;>
            simp [scan, hs, ih, exceptMap_map, exceptMap_ok, exceptMap_error]
      | braced acc =>
          by_cases hi : isIdentChar c = true
          · simp [scan, hi, ih, exceptMap_map, exceptMap_ok, exceptMap_error]
          · by_cases hb : c = '\x7d'
            · have hj : isIdentChar '\x7d' = false := by decide
              cases hl : List.lookup (String.mk acc) ns <;>
                simp [scan, hi, hb, hj, hl, ih, exceptMap_map, exceptMap_ok, exceptMap_error]
            · simp [scan, hi, hb, exceptMap_error]
      | ident acc =>
          by_cases hi : isIdentChar c = true
          · simp [scan, hi, ih, exceptMap_map, exceptMap_ok, exceptMap_error]
          · cases hl : List.lookup (String.mk acc) ns with
            | none => simp [scan, hi, hl, exceptMap_error]
            | some v =>
                have hj : isIdentChar '$' = false := by decide
                by_cases hc : c = '$' <;>
                  simp [scan, hi, hj, hl, hc, ih, exceptMap_map, exceptMap_ok, exceptMap_error]

theorem head_of_dropWhile_not (p : Char → Bool) (l : List Char) :
    ∀ c, (l.dropWhile p).head? = some c → p c = false := by
  induction l with
  | nil => intro c h; simp at h
  | cons a t ih =>
      intro c h
      rw [List.dropWhile_cons] at h
      cases hpa : p a with
      | true =>
          rw [if_pos hpa] at h
          exact ih c h
      | false =>
          rw [if_neg (by simp [hpa])] at h
          simp only [List.head?_cons, Option.some.injEq] at h
          subst h
          exact hpa

theorem dropWhile_of_head_not (p : Char → Bool) (l : List Char)
    (h : ∀ c, l.head? = some c → p c = false) : l.dropWhile p = l := by
  cases l with
  | nil => rfl
  | cons a t =>
      have := h a rfl
      simp [List.dropWhile_cons, this]

theorem pyRstrip_pyStrip (l : List Char) :
    pyRstrip (pyStrip l) = pyStrip l := by
  have key : ((pyStrip l).reverse).dropWhile isPyWhitespace = (pyStrip l).reverse := by
    apply dropWhile_of_head_not
    intro c hc
    rw [List.head?_reverse] at hc
    have hne : pyStrip l ≠ [] := by
      intro h0; rw [h0] at hc; simp at hc
    obtain ⟨t, ht⟩ : pyStrip l <:+ pyRstrip l := List.dropWhile_suffix _
    have h1 : (pyRstrip l).getLast? = some c := by
      rw [← ht, List.getLast?_append_of_ne_nil t hne]; exact hc
    rw [List.getLast?_eq_head?_reverse] at h1
    have h2 : (pyRstrip l).reverse = l.reverse.dropWhile isPyWhitespace := by
      simp [pyRstrip, dropTrailing]
    rw [h2] at h1
    exact head_of_dropWhile_not isPyWhitespace l.reverse c h1
  show dropTrailing isPyWhitespace (pyStrip l) = pyStrip l
  unfold dropTrailing
  rw [key, List.reverse_reverse]

theorem pyStrip_idem (l : List Char) :
    pyStrip (pyStrip l) = pyStrip l := by
  show (pyRstrip (pyStrip l)).dropWhile isPyWhitespace = pyStrip l
  rw [pyRstrip_pyStrip]
  show List.dropWhile isPyWhitespace (List.dropWhile isPyWhitespace (pyRstrip l)) = pyStrip l
  rw [List.dropWhile_idempotent]
  rfl

theorem renderContents_flag :
    ∀ (cs : ContentList) (level : Int) (ns0 : List (String × String)) (ml : Bool)
      (s : String) (b : Bool) (cs2 : ContentList),
      renderContents cs level ns0 ml = .ok (s, b, cs2) → b = (ml || hasNodeC cs)
  | .nil, level, ns0, ml, s, b, cs2 => by
      intro h
      simp only [renderContents, Except.ok.injEq, Prod.mk.injEq] at h
      simp [hasNodeC, ← h.2.1]
  | .cons .null rest, level, ns0, ml, s, b, cs2 => by
      intro h
      simp only [renderContents] at h
      cases hr : renderContents rest level ns0 ml with
      | error e => rw [hr] at h; simp at h
      | ok trip =>
          obtain ⟨s1, b1, rest2⟩ := trip
          rw [hr] at h
          simp only [Except.ok.injEq, Prod.mk.injEq] at h
          have hb := renderContents_flag rest level ns0 ml s1 b1 rest2 hr
          simp [hasNodeC, ← h.2.1, hb]
  | .cons (.node child) rest, level, ns0, ml, s, b, cs2 => by
      intro h
      simp only [renderContents] at h
      cases hn : renderNode child (level + 1) ns0 with
      | error e => rw [hn] at h; simp at h
      | ok pr =>
          obtain ⟨s1, child2⟩ := pr
          rw [hn] at h
          cases hr : renderContents rest level ns0 true with
          | error e => rw [hr] at h; simp at h
          | ok trip =>
              obtain ⟨sr, br, rest2⟩ := trip
              rw [hr] at h
              simp only [Except.ok.injEq, Prod.mk.injEq] at h
              have hb := renderContents_flag rest level ns0 true sr br rest2 hr
              simp [hasNodeC, ← h.2.1, hb]
  | .cons (.text s0) rest, level, ns0, ml, s, b, cs2 => by
      intro h
      simp only [renderContents] at h
      cases hs : substStr ns0 s0 with
      | error e => rw [hs] at h; simp at h
      | ok s1 =>
          rw [hs] at h
          cases hr : renderContents rest level ns0 ml with
          | error e => rw [hr] at h; simp at h
          | ok trip =>
              obtain ⟨sr, br, rest2⟩ := trip
              rw [hr] at h
              simp only [Except.ok.injEq, Prod.mk.injEq] at h
              have hb := renderContents_flag rest level ns0 ml sr br rest2 hr
              simp [hasNodeC, ← h.2.1, hb]

theorem renderContents_irrel :
    ∀ (cs : ContentList) (level : Int) (ns0 : List (String × String)) (ml ml2 : Bool)
      (s : String) (b : Bool) (cs2 : ContentList),
      renderContents cs level ns0 ml = .ok (s, b, cs2) →
      renderContents cs level ns0 ml2 = .ok (s, ml2 || hasNodeC cs, cs2)
  | .nil, level, ns0, ml, ml2, s, b, cs2 => by
      intro h
      simp only [renderContents, Except.ok.injEq, Prod.mk.injEq] at h
      simp [renderContents, hasNodeC, h.1, ← h.2.2]
  | .cons .null rest, level, ns0, ml, ml2, s, b, cs2 => by
      intro h
      simp only [renderContents] at h
      cases hr : renderContents rest level ns0 ml with
      | error e => rw [hr] at h; simp at h
      | ok trip =>
          obtain ⟨s1, b1, rest2⟩ := trip
          rw [hr] at h
          simp only [Except.ok.injEq, Prod.mk.injEq] at h
          obtain ⟨hs1, hb1, hcs2⟩ := h
          have ih := renderContents_irrel rest level ns0 ml ml2 s1 b1 rest2 hr
          simp only [renderContents, ih]
          simp [hasNodeC, hs1, ← hcs2]
  | .cons (.node child) rest, level, ns0, ml, ml2, s, b, cs2 => by
      intro h
      simp only [renderContents] at h
      cases hn : renderNode child (level + 1) ns0 with
      | error e => rw [hn] at h; simp at h
      | ok pr =>
          obtain ⟨s1, child2⟩ := pr
          rw [hn] at h
          cases hr : renderContents rest level ns0 true with
          | error e => rw [hr] at h; simp at h
          | ok trip =>
              obtain ⟨sr, br, rest2⟩ := trip
              rw [hr] at h
              simp only [Except.ok.injEq, Prod.mk.injEq] at h
              obtain ⟨hs1, hb1, hcs2⟩ := h
              have hbr := renderContents_flag rest level ns0 true sr br rest2 hr
              simp only [renderContents, hn, hr]
              simp [hasNodeC, hs1, ← hcs2, ← hb1, hbr]
  | .cons (.text s0) rest, level, ns0, ml, ml2, s, b, cs2 => by
      intro h
      simp only [renderContents] at h
      cases hs : substStr ns0 s0 with
      | error e => rw [hs] at h; simp at h
      | ok s1 =>
          rw [hs] at h
          cases hr : renderContents rest level ns0 ml with
          | error e => rw [hr] at h; simp at h
          | ok trip =>
              obtain ⟨sr, br, rest2⟩ := trip
              rw [hr] at h
              simp only [Except.ok.injEq, Prod.mk.injEq] at h
              obtain ⟨hs1, hb1, hcs2⟩ := h
              have ih := renderContents_irrel rest level ns0 ml ml2 sr br rest2 hr
              simp only [renderContents, hs, ih]
              simp [hasNodeC, hs1, ← hcs2]

theorem renderContents_hasNode :
    ∀ (cs : ContentList) (level : Int) (ns0 : List (String × String)) (ml : Bool)
      (s : String) (b : Bool) (cs2 : ContentList),
      renderContents cs level ns0 ml = .ok (s, b, cs2) → hasNodeC cs2 = hasNodeC cs
  | .nil, level, ns0, ml, s, b, cs2 => by
      intro h
      simp only [renderContents, Except.ok.injEq, Prod.mk.injEq] at h
      simp [← h.2.2]
  | .cons .null rest, level, ns0, ml, s, b, cs2 => by
      intro h
      simp only [renderContents] at h
      cases hr : renderContents rest level ns0 ml with
      | error e => rw [hr] at h; simp at h
      | ok trip =>
          obtain ⟨s1, b1, rest2⟩ := trip
          rw [hr] at h
          simp only [Except.ok.injEq, Prod.mk.injEq] at h
          have ih := renderContents_hasNode rest level ns0 ml s1 b1 rest2 hr
          simp [hasNodeC, ← h.2.2, ih]
  | .cons (.node child) rest, level, ns0, ml, s, b, cs2 => by
      intro h
      simp only [renderContents] at h
      cases hn : renderNode child (level + 1) ns0 with
      | error e => rw [hn] at h; simp at h
      | ok pr =>
          obtain ⟨s1, child2⟩ := pr
          rw [hn] at h
          cases hr : renderContents rest level ns0 true with
          | error e => rw [hr] at h; simp at h
          | ok trip =>
              obtain ⟨sr, br, rest2⟩ := trip
              rw [hr] at h
              simp only [Except.ok.injEq, Prod.mk.injEq] at h
              simp [hasNodeC, ← h.2.2]
  | .cons (.text s0) rest, level, ns0, ml, s, b, cs2 => by
      intro h
      simp only [renderContents] at h
      cases hs : substStr ns0 s0 with
      | error e => rw [hs] at h; simp at h
      | ok s1 =>
          rw [hs] at h
          cases hr : renderContents rest level ns0 ml with
          | error e => rw [hr] at h; simp at h
          | ok trip =>
              obtain ⟨sr, br, rest2⟩ := trip
              rw [hr] at h
              simp only [Except.ok.injEq, Prod.mk.injEq] at h
              have ih := renderContents_hasNode rest level ns0 ml sr br rest2 hr
              simp [hasNodeC, ← h.2.2, ih]

mutual

theorem renderNode_eraseML :
    ∀ (t : Node) (level : Int) (ns0 : List (String × String)) (out : String) (t2 : Node),
      renderNode t level ns0 = .ok (out, t2) → eraseML t2 = eraseML t
  | .mk n ml attrs cs, level, ns0, out, t2 => by
      intro h
      simp only [renderNode] at h
      cases hr : renderContents cs level ns0 ml with
      | error e => rw [hr] at h; simp at h
      | ok trip =>
          obtain ⟨s, b, cs2⟩ := trip
          rw [hr] at h
          have hc := renderContentsList_eraseML cs level ns0 ml s b cs2 hr
          by_cases hn : nameTruthy n = true
          · cases ho : substStr ns0 (openText (nameStr n) attrs b level) with
            | error e => simp [hn, ho] at h
            | ok op =>
                simp only [hn, ho, if_true] at h
                simp only [Except.ok.injEq, Prod.mk.injEq] at h
                obtain ⟨hout, ht2⟩ := h
                subst ht2
                simp [eraseML, hc]
          · simp [hn] at h
            obtain ⟨hout, ht2⟩ := h
            subst ht2
            simp [eraseML, hc]

theorem renderContentsList_eraseML :
    ∀ (cs : ContentList) (level : Int) (ns0 : List (String × String)) (ml : Bool)
      (s : String) (b : Bool) (cs2 : ContentList),
      renderContents cs level ns0 ml = .ok (s, b, cs2) → eraseMLC cs2 = eraseMLC cs
  | .nil, level, ns0, ml, s, b, cs2 => by
      intro h
      simp only [renderContents, Except.ok.injEq, Prod.mk.injEq] at h
      rw [← h.2.2]
  | .cons .null rest, level, ns0, ml, s, b, cs2 => by
      intro h
      simp only [renderContents] at h
      cases hr : renderContents rest level ns0 ml with
      | error e => rw [hr] at h; simp at h
      | ok trip =>
          obtain ⟨s1, b1, rest2⟩ := trip
          rw [hr] at h
          simp only [Except.ok.injEq, Prod.mk.injEq] at h
          have ih := renderContentsList_eraseML rest level ns0 ml s1 b1 rest2 hr
          rw [← h.2.2]
          simp [eraseMLC, eraseMLItem, ih]
  | .cons (.node child) rest, level, ns0, ml, s, b, cs2 => by
      intro h
      simp only [renderContents] at h
      cases hn : renderNode child (level + 1) ns0 with
      | error e => rw [hn] at h; simp at h
      | ok pr =>
          obtain ⟨s1, child2⟩ := pr
          rw [hn] at h
          cases hr : renderContents rest level ns0 true with
          | error e => rw [hr] at h; simp at h
          | ok trip =>
              obtain ⟨sr, br, rest2⟩ := trip
              rw [hr] at h
              simp only [Except.ok.injEq, Prod.mk.injEq] at h
              have ihn := renderNode_eraseML child (level + 1) ns0 s1 child2 hn
              have ih := renderContentsList_eraseML rest level ns0 true sr br rest2 hr
              rw [← h.2.2]
              simp [eraseMLC, eraseMLItem, ih, ihn]
  | .cons (.text s0) rest, level, ns0, ml, s, b, cs2 => by
      intro h
      simp only [renderContents] at h
      cases hs : substStr ns0 s0 with
      | error e => rw [hs] at h; simp at h
      | ok s1 =>
          rw [hs] at h
          cases hr : renderContents rest level ns0 ml with
          | error e => rw [hr] at h; simp at h
          | ok trip =>
              obtain ⟨sr, br, rest2⟩ := trip
              rw [hr] at h
              simp only [Except.ok.injEq, Prod.mk.injEq] at h
              have ih := renderContentsList_eraseML rest level ns0 ml sr br rest2 hr
              rw [← h.2.2]
              simp [eraseMLC, eraseMLItem, ih]

end

mutual

theorem renderNode_repeat :
    ∀ (t : Node) (level : Int) (ns0 : List (String × String)) (out : String) (t2 : Node),
      renderNode t level ns0 = .ok (out, t2) → renderNode t2 level ns0 = .ok (out, t2)
  | .mk n ml attrs cs, level, ns0, out, t2 => by
      intro h
      simp only [renderNode] at h
      cases hr : renderContents cs level ns0 ml with
      | error e => rw [hr] at h; simp at h
      | ok trip =>
          obtain ⟨s, b, cs2⟩ := trip
          rw [hr] at h
          have h1 := renderContentsList_repeat cs level ns0 ml s b cs2 hr
          have h2 := renderContents_irrel cs2 level ns0 ml b s b cs2 h1
          have h3 := renderContents_hasNode cs level ns0 ml s b cs2 hr
          have h4 := renderContents_flag cs level ns0 ml s b cs2 hr
          have h5 : (b || hasNodeC cs2) = b := by
            rw [h3, h4, Bool.or_assoc, Bool.or_self]
          rw [h5] at h2
          by_cases hn : nameTruthy n = true
          · cases ho : substStr ns0 (openText (nameStr n) attrs b level) with
            | error e => simp [hn, ho] at h
            | ok op =>
                simp only [hn, ho, if_true] at h
                simp only [Except.ok.injEq, Prod.mk.injEq] at h
                obtain ⟨hout, ht2⟩ := h
                subst ht2
                subst hout
                simp only [renderNode, h2, hn, ho, if_true]
          · simp [hn] at h
            obtain ⟨hout, ht2⟩ := h
            subst ht2
            subst hout
            simp [renderNode, h2, hn]

theorem renderContentsList_repeat :
    ∀ (cs : ContentList) (level : Int) (ns0 : List (String × String)) (ml : Bool)
      (s : String) (b : Bool) (cs2 : ContentList),
      renderContents cs level ns0 ml = .ok (s, b, cs2) →
      renderContents cs2 level ns0 ml = .ok (s, b, cs2)
  | .nil, level, ns0, ml, s, b, cs2 => by
      intro h
      simp only [renderContents, Except.ok.injEq, Prod.mk.injEq] at h
      rw [← h.2.2, ← h.1, ← h.2.1]
      simp [renderContents]
  | .cons .null rest, level, ns0, ml, s, b, cs2 => by
      intro h
      simp only [renderContents] at h
      cases hr : renderContents rest level ns0 ml with
      | error e => rw [hr] at h; simp at h
      | ok trip =>
          obtain ⟨s1, b1, rest2⟩ := trip
          rw [hr] at h
          simp only [Except.ok.injEq, Prod.mk.injEq] at h
          have ih := renderContentsList_repeat rest level ns0 ml s1 b1 rest2 hr
          rw [← h.2.2, ← h.1, ← h.2.1]
          simp only [renderContents, ih]
  | .cons (.node child) rest, level, ns0, ml, s, b, cs2 => by
      intro h
      simp only [renderContents] at h
      cases hn : renderNode child (level + 1) ns0 with
      | error e => rw [hn] at h; simp at h
      | ok pr =>
          obtain ⟨s1, child2⟩ := pr
          rw [hn] at h
          cases hr : renderContents rest level ns0 true with
          | error e => rw [hr] at h; simp at h
          | ok trip =>
              obtain ⟨sr, br, rest2⟩ := trip
              rw [hr] at h
              simp only [Except.ok.injEq, Prod.mk.injEq] at h
              have ihn := renderNode_repeat child (level + 1) ns0 s1 child2 hn
              have ih := renderContentsList_repeat rest level ns0 true sr br rest2 hr
              rw [← h.2.2, ← h.1, ← h.2.1]
              simp only [renderContents, ihn, ih]
  | .cons (.text s0) rest, level, ns0, ml, s, b, cs2 => by
      intro h
      simp only [renderContents] at h
      cases hs : substStr ns0 s0 with
      | error e => rw [hs] at h; simp at h
      | ok s1 =>
          rw [hs] at h
          cases hr : renderContents rest level ns0 ml with
          | error e => rw [hr] at h; simp at h
          | ok trip =>
              obtain ⟨sr, br, rest2⟩ := trip
              rw [hr] at h
              simp only [Except.ok.injEq, Prod.mk.injEq] at h
              have ih := renderContentsList_repeat rest level ns0 ml sr br rest2 hr
              rw [← h.2.2, ← h.1, ← h.2.1]
              simp only [renderContents, hs, ih]

end

/-- C1: for every namespace and every text containing a placeholder
`$\x7bidentifier\x7d` (dollar-free front segment), `render`'s substitution engine
replaces the placeholder with the namespace value of that identifier and
fails with `missingVariable` when the identifier is absent; in
particular, rendering a node whose single text child is
`"Hello $\x7bname\x7d!"` with namespace `name = "Clio"` yields content
`"Hello Clio!"`, and rendering it with the empty namespace fails with
`missingVariable "name"`. -/
theorem C1_render_substitution (ns0 : List (String × String)) (pre post : List Char)
    (d : Char) (ds : List Char) (hpre : ∀ c ∈ pre, c ≠ '$')
    (hd : isIdentStart d = true) (hds : ∀ c ∈ ds, isIdentChar c = true) :
    (∀ v, List.lookup (String.mk (d :: ds)) ns0 = some v →
        scan ns0 .plain (pre ++ '$' :: '\x7b' :: d :: (ds ++ '\x7d' :: post)) =
          (fun r => pre ++ (v.data ++ r)) <$> scan ns0 .plain post)
    ∧ (List.lookup (String.mk (d :: ds)) ns0 = none →
        scan ns0 .plain (pre ++ '$' :: '\x7b' :: d :: (ds ++ '\x7d' :: post)) =
          .error (.missingVariable (String.mk (d :: ds))))
    ∧ renderNode (.mk none false [] (.cons (.text "Hello $\x7bname\x7d!") .nil)) (-1)
        [("name", "Clio")] =
        .ok ("Hello Clio!", .mk none false [] (.cons (.text "Hello $\x7bname\x7d!") .nil))
    ∧ renderNode (.mk none false [] (.cons (.text "Hello $\x7bname\x7d!") .nil)) (-1) [] =
        .error (.missingVariable "name") := by
  have h1 : ¬ ('\x7b' = '$') := by decide
  have e : scan ns0 SMode.plain ('$' :: '\x7b' :: d :: (ds ++ '\x7d' :: post))
      = scan ns0 (SMode.braced [d]) (ds ++ '\x7d' :: post) := by
    simp [scan, h1, hd]
  have hb := scan_braced_consume ns0 ds [d] post hds
  simp only [List.singleton_append] at hb
  refine ⟨?_, ?_, rfl, rfl⟩
  · intro v hv
    rw [scan_plain_append ns0 pre _ hpre, e, hb, hv]
    cases hsc : scan ns0 SMode.plain post <;>
      simp [hsc, exceptMap_ok, exceptMap_error]
  · intro hv
    rw [scan_plain_append ns0 pre _ hpre, e, hb, hv]
    rfl

/-- Witness for C1 at the concrete instance `"Hello $\x7bname\x7d!"` with
namespace `name = "Clio"`. -/
theorem C1_render_substitution_witness :
    scan [("name", "Clio")] SMode.plain
        ("Hello ".data ++ '$' :: '\x7b' :: 'n' :: ("ame".data ++ '\x7d' :: "!".data)) =
      (fun r => "Hello ".data ++ ("Clio".data ++ r)) <$>
        scan [("name", "Clio")] SMode.plain "!".data :=
  (C1_render_substitution [("name", "Clio")] "Hello ".data "!".data 'n' "ame".data
    (by decide) (by decide) (by decide)).1 "Clio" (by decide)

/-- C2: a named node whose contents hold no node child stays single-line:
the rendered output is the substituted opening tag, then the concatenated
substituted text stripped of leading and trailing whitespace, then the
closing tag; the final node keeps `multiLine = false`. -/
theorem C2_single_line (n : String) (attrs : List (String × String)) (cs : ContentList)
    (level : Int) (ns0 : List (String × String)) (out : String) (t2 : Node)
    (hn : n ≠ "") (hnod : hasNodeC cs = false)
    (h : renderNode (.mk (some n) false attrs cs) level ns0 = .ok (out, t2)) :
    t2.multiLine = false ∧
    ∃ op s cs2,
      substStr ns0 (openText n attrs false level) = .ok op ∧
      renderContents cs level ns0 false = .ok (s, false, cs2) ∧
      out = op ++ String.mk (pyStrip s.data) ++ closeText n false level ∧
      closeText n false level = "</" ++ n ++ ">
" ∧
      pyStrip (pyStrip s.data) = pyStrip s.data := by
  have hnt : nameTruthy (some n) = true := by simp [nameTruthy, hn]
  simp only [renderNode] at h
  cases hr : renderContents cs level ns0 false with
  | error e => rw [hr] at h; simp at h
  | ok trip =>
      obtain ⟨s, b, cs2⟩ := trip
      rw [hr] at h
      have hb : b = false := by
        have hf := renderContents_flag cs level ns0 false s b cs2 hr
        simpa [hnod] using hf
      subst hb
      cases ho : substStr ns0 (openText (nameStr (some n)) attrs false level) with
      | error e => simp [hnt, ho] at h
      | ok op =>
          simp only [hnt, ho, if_true] at h
          simp only [Except.ok.injEq, Prod.mk.injEq] at h
          obtain ⟨hout, ht2⟩ := h
          subst ht2
          refine ⟨rfl, op, s, cs2, ?_, rfl, ?_, rfl, pyStrip_idem s.data⟩
          · simpa [nameStr] using ho
          · rw [← hout]
            rfl

/-- Witness for C2 at the concrete single-line node `<p> hi </p>`. -/
theorem C2_single_line_witness :
    (Node.mk (some "p") false [] (.cons (.text " hi ") .nil)).multiLine = false ∧
    ∃ op s cs2,
      substStr [] (openText "p" [] false 0) = .ok op ∧
      renderContents (.cons (.text " hi ") .nil) 0 [] false = .ok (s, false, cs2) ∧
      "<p>hi</p>\n" = op ++ String.mk (pyStrip s.data) ++ closeText "p" false 0 ∧
      closeText "p" false 0 = "</" ++ "p" ++ ">\n" ∧
      pyStrip (pyStrip s.data) = pyStrip s.data :=
  C2_single_line "p" [] (.cons (.text " hi ") .nil) 0 [] "<p>hi</p>\n"
    (.mk (some "p") false [] (.cons (.text " hi ") .nil)) (by decide) rfl rfl

theorem append_close_data (y : String) : (y ++ ">\n").data = (y.data ++ ['>']) ++ ['\n'] := by
  rw [String.data_append]
  simp

/-- C3 (amended): a named node with at least one node child renders in
multi-line mode: the opening tag is rendered at `indentLevel` and is
followed immediately by a newline, the contents are rendered by the loop
at the same `indentLevel` argument (node children recursively at
`indentLevel + 1`), and for `indentLevel ≥ 0` one extra level is exactly
one two-space unit deeper; at `indentLevel = -1` both `tabs (-1)` and
`tabs 0` are empty, so the children are not literally two spaces deeper
there. -/
theorem C3_multi_line (n : String) (attrs : List (String × String)) (cs : ContentList)
    (ml : Bool) (level : Int) (ns0 : List (String × String)) (out : String) (t2 : Node)
    (hn : n ≠ "") (hnod : hasNodeC cs = true)
    (h : renderNode (.mk (some n) ml attrs cs) level ns0 = .ok (out, t2)) :
    t2.multiLine = true ∧
    ∃ op s cs2,
      substStr ns0 (openText n attrs false level) = .ok op ∧
      substStr ns0 (openText n attrs true level) = .ok (op ++ "\n") ∧
      renderContents cs level ns0 ml = .ok (s, true, cs2) ∧
      out = (op ++ "\n") ++ String.mk (pyRstrip s.data) ++ closeText n true level ∧
      closeText n true level = "\n" ++ tabs level ++ "</" ++ n ++ ">\n" ∧
      t2 = .mk (some n) true attrs cs2 ∧
      (0 ≤ level → tabs (level + 1) = tabs level ++ TAB) := by
  have hnt : nameTruthy (some n) = true := by simp [nameTruthy, hn]
  simp only [renderNode, nameStr] at h
  cases hr : renderContents cs level ns0 ml with
  | error e => rw [hr] at h; simp at h
  | ok trip =>
      obtain ⟨s, b, cs2⟩ := trip
      rw [hr] at h
      have hb : b = true := by
        have hf := renderContents_flag cs level ns0 ml s b cs2 hr
        simpa [hnod] using hf
      subst hb
      cases ho : substStr ns0 (openText n attrs true level) with
      | error e => simp [hnt, ho] at h
      | ok op1 =>
          simp only [hnt, ho, if_true] at h
          simp only [Except.ok.injEq, Prod.mk.injEq] at h
          obtain ⟨hout, ht2⟩ := h
          subst ht2
          have hsplit : openText n attrs true level = openText n attrs false level ++ "\n" := by
            simp [openText, String.append_empty]
          rw [hsplit] at ho
          unfold substStr at ho
          rw [show (openText n attrs false level ++ "\n").data =
                (openText n attrs false level).data ++ ['\n'] from by
              rw [String.data_append]] at ho
          rw [scan_append_newline ns0 (openText n attrs false level).data SMode.plain] at ho
          cases hx : scan ns0 SMode.plain (openText n attrs false level).data with
          | error e => rw [hx] at ho; simp [exceptMap_error] at ho
          | ok r =>
              rw [hx] at ho
              simp only [exceptMap_ok, Except.ok.injEq] at ho
              refine ⟨rfl, String.mk r, s, cs2, ?_, ?_, rfl, ?_, rfl, rfl, ?_⟩
              · unfold substStr
                rw [hx]
                rfl
              · rw [← ho]
                rfl
              · rw [← hout, ← ho]
                rfl
              · intro hlev
                have h2 : (2 : Nat) * (level + 1).toNat = 2 * level.toNat + 2 := by omega
                unfold tabs TAB
                rw [h2, List.replicate_add]
                rfl

/-- C3 counterexample: rendering the named node `<a>` with one node child
`<b>` at `indentLevel = -1` renders the child at level `0`, where both
`tabs (-1)` and `tabs 0` are empty — the child is not indented exactly one
two-space unit deeper than the opening tag. -/
theorem C3_counterexample :
    renderNode (.mk (some "a") false [] (.cons (.node (.mk (some "b") false [] .nil)) .nil))
        (-1) [] =
      .ok ("<a>\n<b></b>\n</a>\n",
        .mk (some "a") true [] (.cons (.node (.mk (some "b") false [] .nil)) .nil))
    ∧ tabs ((-1 : Int) + 1) ≠ tabs (-1) ++ TAB :=
  ⟨rfl, by decide⟩

/-- Witness for the amended C3 at the concrete tree `<a><b></b></a>`
rendered at level 0. -/
theorem C3_multi_line_witness :
    (Node.mk (some "a") true [] (.cons (.node (.mk (some "b") false [] .nil)) .nil)).multiLine
        = true ∧
    ∃ op s cs2,
      substStr [] (openText "a" [] false 0) = .ok op ∧
      substStr [] (openText "a" [] true 0) = .ok (op ++ "\n") ∧
      renderContents (.cons (.node (.mk (some "b") false [] .nil)) .nil) 0 [] false
        = .ok (s, true, cs2) ∧
      "<a>\n  <b></b>\n</a>\n" = (op ++ "\n") ++ String.mk (pyRstrip s.data)
        ++ closeText "a" true 0 ∧
      closeText "a" true 0 = "\n" ++ tabs 0 ++ "</" ++ "a" ++ ">\n" ∧
      (Node.mk (some "a") true [] (.cons (.node (.mk (some "b") false [] .nil)) .nil) : Node)
        = .mk (some "a") true [] cs2 ∧
      ((0 : Int) ≤ 0 → tabs ((0 : Int) + 1) = tabs 0 ++ TAB) :=
  C3_multi_line "a" [] (.cons (.node (.mk (some "b") false [] .nil)) .nil) false 0 []
    "<a>\n  <b></b>\n</a>\n"
    (.mk (some "a") true [] (.cons (.node (.mk (some "b") false [] .nil)) .nil))
    (by decide) rfl rfl

/-- C4: every successful render of a named node ends with the closing tag
produced by the close step — in multi-line mode a newline, the
indentation, `</name>` and a newline; in single-line mode just `</name>`
and a newline — so the output ends with a trailing newline in both
modes. -/
theorem C4_close_trailing_newline (n : String) (ml : Bool) (attrs : List (String × String))
    (cs : ContentList) (level : Int) (ns0 : List (String × String)) (out : String) (t2 : Node)
    (hn : n ≠ "")
    (h : renderNode (.mk (some n) ml attrs cs) level ns0 = .ok (out, t2)) :
    (∃ p, out = p ++ closeText n t2.multiLine level)
    ∧ closeText n true level = "\n" ++ tabs level ++ "</" ++ n ++ ">\n"
    ∧ closeText n false level = "</" ++ n ++ ">\n"
    ∧ (∃ q, out.data = q ++ ['\n']) := by
  have hnt : nameTruthy (some n) = true := by simp [nameTruthy, hn]
  simp only [renderNode, nameStr] at h
  cases hr : renderContents cs level ns0 ml with
  | error e => rw [hr] at h; simp at h
  | ok trip =>
      obtain ⟨s, b, cs2⟩ := trip
      rw [hr] at h
      cases ho : substStr ns0 (openText n attrs b level) with
      | error e => simp [hnt, ho] at h
      | ok op =>
          simp only [hnt, ho, if_true] at h
          simp only [Except.ok.injEq, Prod.mk.injEq] at h
          obtain ⟨hout, ht2⟩ := h
          subst ht2
          refine ⟨⟨op ++ (if b then String.mk (pyRstrip s.data)
              else String.mk (pyStrip s.data)), ?_⟩, rfl, rfl, ?_⟩
          · rw [← hout]
            cases b <;> rfl
          · cases b with
            | false =>
                refine ⟨(op ++ String.mk (pyStrip s.data)).data ++
                  (("</" ++ n).data ++ ['>']), ?_⟩
                rw [← hout]
                show ((op ++ String.mk (pyStrip s.data)) ++ (("</" ++ n) ++ ">\n")).data = _
                rw [String.data_append, append_close_data]
                simp [List.append_assoc]
            | true =>
                refine ⟨(op ++ String.mk (pyRstrip s.data)).data ++
                  ((("\n" ++ tabs level ++ "</") ++ n).data ++ ['>']), ?_⟩
                rw [← hout]
                show ((op ++ String.mk (pyRstrip s.data)) ++
                  ((("\n" ++ tabs level ++ "</") ++ n) ++ ">\n")).data = _
                rw [String.data_append, append_close_data]
                simp [List.append_assoc]

/-- Witness for C4 at the concrete single-line node `<p></p>`. -/
theorem C4_close_trailing_newline_witness :
    (∃ p, "<p></p>\n" = p ++ closeText "p"
        (Node.mk (some "p") false [] ContentList.nil).multiLine 0)
    ∧ closeText "p" true 0 = "\n" ++ tabs 0 ++ "</" ++ "p" ++ ">\n"
    ∧ closeText "p" false 0 = "</" ++ "p" ++ ">\n"
    ∧ (∃ q, ("<p></p>\n" : String).data = q ++ ['\n']) :=
  C4_close_trailing_newline "p" false [] .nil 0 [] "<p></p>\n"
    (.mk (some "p") false [] .nil) (by decide) rfl

/-- C5 counterexample: an anonymous node wrapping the single node child
`<b>` renders as the child's rendering with its trailing newline
stripped, not as exactly the child's rendering. -/
theorem C5_counterexample :
    renderNode (.mk (some "b") false [] .nil) 0 []
        = .ok ("<b></b>\n", .mk (some "b") false [] .nil)
    ∧ renderNode (.mk none false [] (.cons (.node (.mk (some "b") false [] .nil)) .nil)) (-1) []
        = .ok ("<b></b>", .mk none true [] (.cons (.node (.mk (some "b") false [] .nil)) .nil))
    ∧ ("<b></b>" : String) ≠ "<b></b>\n" :=
  ⟨rfl, rfl, by decide⟩

/-- C5 (amended): an anonymous node with exactly one node child emits no
tags of its own and outputs exactly the child's rendering with trailing
whitespace (in particular the final newline) stripped; leading content is
preserved because the multi-line branch only right-strips. -/
theorem C5_anonymous_wrapper (child : Node) (ml : Bool) (attrs : List (String × String))
    (level : Int) (ns0 : List (String × String)) (s : String) (c2 : Node)
    (h : renderNode child (level + 1) ns0 = .ok (s, c2)) :
    renderNode (.mk none ml attrs (.cons (.node child) .nil)) level ns0 =
      .ok (String.mk (pyRstrip s.data), .mk none true attrs (.cons (.node c2) .nil)) := by
  simp only [renderNode, renderContents, h]
  simp [nameTruthy, String.append_empty]

/-- Witness for the amended C5: the anonymous root wrapping `<li>` at
level -1 renders to the child's output right-stripped. -/
theorem C5_anonymous_wrapper_witness :
    renderNode (.mk none false [] (.cons (.node (.mk (some "li") false [] .nil)) .nil)) (-1) [] =
      .ok (String.mk (pyRstrip ("<li></li>\n".data)),
        .mk none true [] (.cons (.node (.mk (some "li") false [] .nil)) .nil)) :=
  C5_anonymous_wrapper (.mk (some "li") false [] .nil) false [] (-1) [] "<li></li>\n"
    (.mk (some "li") false [] .nil) rfl

theorem contains_false_of_underscore_keys :
    ∀ (keys : List String) (n : String),
      (∀ k ∈ keys, startsUnderscore k = true) → startsUnderscore n = false →
      keys.contains n = false
  | [], _, _, _ => rfl
  | k :: ks, n, hk, hn => by
      have hk0 := hk k (by simp)
      have hbeq : (n == k) = false := by
        rcases hb : (n == k) with _ | _
        · rfl
        · have he : n = k := by
            have := (beq_iff_eq (a := n) (b := k)).mp hb
            exact this
          rw [he, hk0] at hn
          exact Bool.noConfusion hn
      have ih := contains_false_of_underscore_keys ks n
        (fun x hx => hk x (List.mem_cons_of_mem k hx)) hn
      rw [List.contains_cons, hbeq, ih]
      rfl

/-- C6 counterexample: after `setAttribute("foo", "v")` on a fresh node,
a reference to `foo` still triggers auto-creation — `__setattr__` stores
the pair in the attributes list, not in the instance dictionary, so
normal lookup of `foo` still fails and `__getattr__` appends a fresh
child. -/
theorem C6_counterexample :
    (pySetattr (pyNew none) "foo" "v").node.contents = ContentList.nil
    ∧ pyRef (pySetattr (pyNew none) "foo" "v") "foo" =
        some (.mk (some "foo") false [] .nil,
          ⟨.mk none false [("foo", "v")] (.cons (.node (.mk (some "foo") false [] .nil)) .nil),
            []⟩) :=
  ⟨rfl, by decide⟩

/-- C6 (amended): auto-creation happens for every referenced name that is
not an instance-dictionary key and not a class attribute; since
`setAttribute` never stores non-underscore names in the instance
dictionary, a reference to a name after `setAttribute(name, value)` still
auto-creates and appends a new child node of that name. -/
theorem C6_autocreate_after_set (p : PyNode) (n v : String)
    (h1 : startsUnderscore n = false)
    (h2 : p.extraDictKeys.contains n = false) :
    pyRef (pySetattr p n v) n =
      some (.mk (some n) false [] .nil,
        ⟨appendChild (T_set p.node n v) (.mk (some n) false [] .nil), p.extraDictKeys⟩) := by
  have e1 : pySetattr p n v = ⟨T_set p.node n v, p.extraDictKeys⟩ := by
    simp [pySetattr, h1]
  rw [e1]
  have hin : T_initialDictKeys.contains n = false :=
    contains_false_of_underscore_keys T_initialDictKeys n (by decide) h1
  have hcl : T_classKeys.contains n = false :=
    contains_false_of_underscore_keys T_classKeys n (by decide) h1
  have hin2 : n ∉ T_initialDictKeys := by simpa using hin
  have hcl2 : n ∉ T_classKeys := by simpa using hcl
  have hex2 : n ∉ p.extraDictKeys := by simpa using h2
  have hlf : lookupFails ⟨T_set p.node n v, p.extraDictKeys⟩ n = true := by
    simp [lookupFails]
    exact ⟨⟨hin2, hex2⟩, hcl2⟩
  simp [pyRef, hlf]

/-- Witness for the amended C6 on a fresh anonymous node with
`setAttribute("foo", "v")`. -/
theorem C6_autocreate_after_set_witness :
    pyRef (pySetattr (pyNew none) "foo" "v") "foo" =
      some (.mk (some "foo") false [] .nil,
        ⟨appendChild (T_set (pyNew none).node "foo" "v") (.mk (some "foo") false [] .nil),
          (pyNew none).extraDictKeys⟩) :=
  C6_autocreate_after_set (pyNew none) "foo" "v" (by decide) (by decide)

/-- C7: two successive references to the same undefined child name on one
node each auto-create a fresh child: the contents gain two sibling node
entries of that name, and each is rendered independently in the output
(concretely, an anonymous node with two auto-created `li` children
renders both `<li></li>` elements). -/
theorem C7_two_refs (p : PyNode) (n : String)
    (h1 : startsUnderscore n = false)
    (h2 : p.extraDictKeys.contains n = false) :
    (∃ c p1 p2,
      pyRef p n = some (c, p1) ∧ pyRef p1 n = some (c, p2) ∧
      c = .mk (some n) false [] .nil ∧
      p2.node.contents =
        (p.node.contents.append (.cons (.node c) .nil)).append (.cons (.node c) .nil))
    ∧ renderNode (.mk none false []
          (.cons (.node (.mk (some "li") false [] .nil))
            (.cons (.node (.mk (some "li") false [] .nil)) .nil))) (-1) [] =
        .ok ("<li></li>\n<li></li>",
          .mk none true []
            (.cons (.node (.mk (some "li") false [] .nil))
              (.cons (.node (.mk (some "li") false [] .nil)) .nil))) := by
  have hin : T_initialDictKeys.contains n = false :=
    contains_false_of_underscore_keys T_initialDictKeys n (by decide) h1
  have hcl : T_classKeys.contains n = false :=
    contains_false_of_underscore_keys T_classKeys n (by decide) h1
  have hin2 : n ∉ T_initialDictKeys := by simpa using hin
  have hcl2 : n ∉ T_classKeys := by simpa using hcl
  have hex2 : n ∉ p.extraDictKeys := by simpa using h2
  have hlf : lookupFails p n = true := by
    simp [lookupFails]
    exact ⟨⟨hin2, hex2⟩, hcl2⟩
  have hlf1 : lookupFails ⟨appendChild p.node (.mk (some n) false [] .nil),
      p.extraDictKeys⟩ n = true := by
    simp [lookupFails]
    exact ⟨⟨hin2, hex2⟩, hcl2⟩
  refine ⟨⟨.mk (some n) false [] .nil,
    ⟨appendChild p.node (.mk (some n) false [] .nil), p.extraDictKeys⟩,
    ⟨appendChild (appendChild p.node (.mk (some n) false [] .nil))
        (.mk (some n) false [] .nil), p.extraDictKeys⟩, ?_, ?_, rfl, ?_⟩, rfl⟩
  · simp [pyRef, hlf]
  · simp [pyRef, hlf1]
  · cases hp : p.node with
    | mk n0 ml0 attrs0 cs0 => simp [appendChild, Node.contents]

/-- Witness for C7: the closed rendering fact extracted by applying the
theorem to a fresh anonymous node and the name `li`. -/
theorem C7_two_refs_witness :
    renderNode (.mk none false []
        (.cons (.node (.mk (some "li") false [] .nil))
          (.cons (.node (.mk (some "li") false [] .nil)) .nil))) (-1) [] =
      .ok ("<li></li>\n<li></li>",
        .mk none true []
          (.cons (.node (.mk (some "li") false [] .nil))
            (.cons (.node (.mk (some "li") false [] .nil)) .nil))) :=
  (C7_two_refs (pyNew none) "li" (by decide) (by decide)).2

theorem attrsText_data_append :
    ∀ (xs ys : List (String × String)),
      (attrsText (xs ++ ys)).data = (attrsText xs).data ++ (attrsText ys).data
  | [], ys => by simp [attrsText]
  | (a, v) :: xs, ys => by
      simp [attrsText, String.data_append, attrsText_data_append xs ys, List.append_assoc]

/-- C8: attributes render in assignment order: after `setAttribute(a, va)`
then `setAttribute(b, vb)` the attribute list is the old list with the
two stripped pairs appended in that order, the attribute segment of the
opening tag lists `a`'s fragment before `b`'s fragment, and the opening
tag embeds that segment verbatim. -/
theorem C8_attr_order (t : Node) (a va b vb : String) (n0 : String) (ml : Bool) (level : Int) :
    (T_set (T_set t a va) b vb).attributes =
      t.attributes ++ [(stripTrailingUnderscores a, va), (stripTrailingUnderscores b, vb)]
    ∧ (attrsText ((T_set (T_set t a va) b vb).attributes)).data =
        (attrsText t.attributes).data
          ++ ((" " ++ stripTrailingUnderscores a ++ "=\"" ++ va ++ "\"").data
          ++ (" " ++ stripTrailingUnderscores b ++ "=\"" ++ vb ++ "\"").data)
    ∧ openText n0 ((T_set (T_set t a va) b vb).attributes) ml level =
        tabs level ++ "<" ++ n0 ++ attrsText ((T_set (T_set t a va) b vb).attributes) ++ ">"
          ++ (if ml then "\n" else "") := by
  have h1 : (T_set (T_set t a va) b vb).attributes =
      t.attributes ++ [(stripTrailingUnderscores a, va), (stripTrailingUnderscores b, vb)] := by
    simp [T_set, Node.attributes]
  refine ⟨h1, ?_, rfl⟩
  rw [h1, attrsText_data_append]
  simp [attrsText, String.data_append, List.append_assoc]

/-- C9: a successful render changes none of the node's name, attribute
list or contents structure — the post-render tree equals the pre-render
tree after erasing every `multiLine` flag, which is the only state render
mutates. -/
theorem C9_render_frame (t : Node) (level : Int) (ns0 : List (String × String))
    (out : String) (t2 : Node)
    (h : renderNode t level ns0 = .ok (out, t2)) :
    t2.name = t.name ∧ t2.attributes = t.attributes ∧ eraseML t2 = eraseML t := by
  have he := renderNode_eraseML t level ns0 out t2 h
  cases t with
  | mk n ml attrs cs =>
      cases t2 with
      | mk n2 ml2 attrs2 cs2 =>
          simp only [eraseML, Node.mk.injEq] at he
          obtain ⟨e1, _, e2, e3⟩ := he
          refine ⟨by simp [Node.name, e1], by simp [Node.attributes, e2], ?_⟩
          simp [eraseML, e1, e2, e3]

/-- Witness for C9: rendering the anonymous root wrapping `<li>` flips
only its `multiLine` flag. -/
theorem C9_render_frame_witness :
    (Node.mk none true [] (.cons (.node (.mk (some "li") false [] .nil)) .nil)).name
        = (Node.mk none false [] (.cons (.node (.mk (some "li") false [] .nil)) .nil)).name
    ∧ (Node.mk none true [] (.cons (.node (.mk (some "li") false [] .nil)) .nil)).attributes
        = (Node.mk none false [] (.cons (.node (.mk (some "li") false [] .nil)) .nil)).attributes
    ∧ eraseML (Node.mk none true [] (.cons (.node (.mk (some "li") false [] .nil)) .nil))
        = eraseML (Node.mk none false [] (.cons (.node (.mk (some "li") false [] .nil)) .nil)) :=
  C9_render_frame (.mk none false [] (.cons (.node (.mk (some "li") false [] .nil)) .nil))
    (-1) [] "<li></li>"
    (.mk none true [] (.cons (.node (.mk (some "li") false [] .nil)) .nil)) (by rfl)

/-- C10: render is repeatable: rendering the node returned by a
successful render, at the same level and namespace, returns the same
output string and the same node — the `multiLine` mutation of the first
render does not change the second render's output. -/
theorem C10_render_repeatable (t : Node) (level : Int) (ns0 : List (String × String))
    (out : String) (t2 : Node)
    (h : renderNode t level ns0 = .ok (out, t2)) :
    renderNode t2 level ns0 = .ok (out, t2) :=
  renderNode_repeat t level ns0 out t2 h

/-- Witness for C10: re-rendering the post-render anonymous root wrapping
`<li>` reproduces the same output. -/
theorem C10_render_repeatable_witness :
    renderNode (.mk none true [] (.cons (.node (.mk (some "li") false [] .nil)) .nil)) (-1) [] =
      .ok ("<li></li>", .mk none true [] (.cons (.node (.mk (some "li") false [] .nil)) .nil)) :=
  C10_render_repeatable
    (.mk none false [] (.cons (.node (.mk (some "li") false [] .nil)) .nil)) (-1) []
    "<li></li>"
    (.mk none true [] (.cons (.node (.mk (some "li") false [] .nil)) .nil)) (by rfl)

end PyHTML
